import Mathlib

/-!
Verification of the browser front-end of AI-Code-Rule-Checker
(`src/static/app.js`) against its natural-language specification.

The file is a shallow embedding of the script's core logic:

* `segment` — the message segmentation performed inside `appendBubble`
  (split on triple-backtick fences, alternating prose/code, language-tag
  stripping, leading-newline stripping);
* `renderCheckResult`, `displaySeverity`, `displayLine` — the
  normalisation of a raw `/check` response performed by
  `renderCheckResult`;
* `postJson` — response classification of the shared HTTP helper
  (a thrown `Error` is modelled as `ApiOutcome.failure`);
* `getSessionId`, `onSessionEdit` — the session-id state machine over
  the input field and the `localStorage` entry;
* `sendChatPre`, `runCheckPre` — the synchronous prefixes of `sendChat`
  and `runCheck` up to the point where a network request is (or is not)
  issued.

JavaScript strings are modelled as Lean `String` / `List Char`;
absent object fields as `Option`; JS `trim`, `split`, `slice` and the
regexes `/^[a-zA-Z0-9_-]+$/` and `/^\n+/` are modelled explicitly below.
All definitions are executable so that concrete runs can be settled by
`decide`.
-/

namespace AppJs

/-- The backtick character (written via its code point so that it only
ever appears inside string literals elsewhere). -/
def btick : Char := Char.ofNat 96

/-- The triple-backtick fence delimiter used by `appendBubble`
(`text.split("\x60\x60\x60")`). -/
def fence : List Char := [btick, btick, btick]

/-- Whitespace recognised by JavaScript `String.prototype.trim`
(restricted to the ASCII range; the Unicode space characters JS also
trims cannot occur in any input considered here). -/
def isJsWs (c : Char) : Bool :=
  c = ' ' || c = '\t' || c = '\n' || c = '\r' || c = '\x0b' || c = '\x0c'

/-- JS `trim` on a list of characters: drop whitespace from both ends. -/
def jsTrimL (l : List Char) : List Char :=
  ((l.dropWhile isJsWs).reverse.dropWhile isJsWs).reverse

/-- JS `String.prototype.trim`. -/
def jsTrim (s : String) : String := (jsTrimL s.data).asString

/-- A character accepted by the language-tag regex `/^[a-zA-Z0-9_-]+$/`. -/
def isIdentChar (c : Char) : Bool :=
  ('a' ≤ c && c ≤ 'z') || ('A' ≤ c && c ≤ 'Z') || ('0' ≤ c && c ≤ '9')
    || c = '_' || c = '-'

/-- The test `/^[a-zA-Z0-9_-]+$/.test(s)`: non-empty and all characters
from the identifier class. -/
def identLike (l : List Char) : Bool := !l.isEmpty && l.all isIdentChar

/-- `code.replace(/^\n+/, "")`: strip leading newline characters. -/
def dropLeadNl (l : List Char) : List Char := l.dropWhile (fun c => c == '\n')

/-- Strip trailing newline characters (used only to state the round-trip
equivalence of segment sequences). -/
def rstripNl (l : List Char) : List Char :=
  (l.reverse.dropWhile (fun c => c == '\n')).reverse

/-- JS `s.toLowerCase()` (ASCII case mapping; all severity strings that
occur are ASCII). -/
def jsToLower (s : String) : String := (s.data.map Char.toLower).asString

/-! ## Check-result rendering (`renderCheckResult`, app.js lines 165–198) -/

/-- One raw violation entry as received from `/check`; only the fields
the renderer inspects for severity and line range are modelled.
`none` models an absent field. -/
structure RawViolation where
  severity : Option String
  start_line : Option Int
  end_line : Option Int
deriving DecidableEq, Repr

/-- The raw `violations` field: a JS array, a present but non-array
value, or absent (`Array.isArray` distinguishes only these cases). -/
inductive RawViolations where
  | list (vs : List RawViolation)
  | nonList
  | absent
deriving DecidableEq, Repr

/-- The raw `/check` response object as the renderer sees it. -/
structure RawCheckResponse where
  summary : Option String
  violations : RawViolations
  fixed_code : Option String
  unified_diff : Option String
deriving DecidableEq, Repr

/-- JS `x || d` for a possibly-absent string field: absent and the empty
string are falsy and yield the default. -/
def jsOrElse (o : Option String) (d : String) : String :=
  match o with
  | none => d
  | some s => if s = "" then d else s

/-- JS truthiness of a possibly-absent numeric field: absent and `0`
are falsy. -/
def jsTruthyInt (o : Option Int) : Bool :=
  match o with
  | none => false
  | some n => n != 0

/-- String interpolation `${o}` for a numeric field (only ever reached
on truthy values in the renderer). -/
def optIntStr (o : Option Int) : String :=
  match o with
  | none => "undefined"
  | some n => toString n

/-- `const sev = (v.severity || "warning").toLowerCase()` (line 183). -/
def displaySeverity (sev : Option String) : String :=
  jsToLower (jsOrElse sev "warning")

/-- line 184:
`(v.start_line && v.end_line) ? "s~e" : (v.start_line ? "s" : "-")`. -/
def displayLine (s e : Option Int) : String :=
  if jsTruthyInt s && jsTruthyInt e then optIntStr s ++ "~" ++ optIntStr e
  else if jsTruthyInt s then optIntStr s
  else "-"

/-- The view state produced by `renderCheckResult`: summary text,
violation list handed to the per-entry loop, and the two code panes. -/
structure CheckResultView where
  summary : String
  violations : List RawViolation
  fixed_code : String
  unified_diff : String
deriving DecidableEq, Repr

/-- `renderCheckResult` (lines 165–178): defaulting of `summary`,
`fixed_code`, `unified_diff` via `||`, and of `violations` via
`Array.isArray`. -/
def renderCheckResult (r : RawCheckResponse) : CheckResultView :=
  { summary := jsOrElse r.summary "(summary 없음)"
    fixed_code := jsOrElse r.fixed_code ""
    unified_diff := jsOrElse r.unified_diff ""
    violations :=
      match r.violations with
      | RawViolations.list vs => vs
      | _ => [] }

/-! ## HTTP helper (`postJson`, app.js lines 119–134) -/

/-- The value a successful `postJson` resolves with: either the decoded
JSON body, or — when `JSON.parse` fails — the fallback object
`{raw: text}` carrying the raw body text. -/
inductive RespBody (α : Type) where
  | parsed (v : α)
  | raw (text : String)
deriving DecidableEq, Repr

/-- Outcome of one call: resolution with a body, or the thrown
`Error(message)` modelled as `failure`. -/
inductive ApiOutcome (β : Type) where
  | success (v : β)
  | failure (msg : String)
deriving DecidableEq, Repr

/-- `res.ok`: status in the inclusive range 200–299. -/
def resOk (status : Nat) : Bool := 200 ≤ status && status < 300

/-- `postJson` after the response arrived, parameterised by the
`JSON.parse` oracle `parse` (`parse t = none` models a `SyntaxError`):
read body text, throw `Error(text || "HTTP " + status)` when not ok,
otherwise return the parsed body or the `{raw: text}` fallback. -/
def postJson {α : Type} (parse : String → Option α) (status : Nat)
    (text : String) : ApiOutcome (RespBody α) :=
  if resOk status then
    match parse text with
    | some v => ApiOutcome.success (RespBody.parsed v)
    | none => ApiOutcome.success (RespBody.raw text)
  else
    ApiOutcome.failure (if text = "" then "HTTP " ++ toString status else text)

/-! ## Session identity (`getSessionId`, lines 60–68; `change` listener,
lines 256–259) -/

/-- The mutable session-id state: the text of the `#sessionId` input
field and the `localStorage` entry under `STORAGE_KEY` (`none` when the
key is absent). -/
structure SessionState where
  value : String
  stored : Option String
deriving DecidableEq, Repr

/-- JS `s.slice(a, b)` for `0 ≤ a ≤ b`. -/
def jsSlice (s : String) (a b : Nat) : String :=
  ((s.data.drop a).take (b - a)).asString

/-- `getSessionId` (lines 60–68), parameterised by the string
`Math.random().toString(16)` produced by the random source on this
call: trim the field; when empty, synthesize `"demo-" + hex.slice(2,10)`
and write it back into the field; in every case store the resulting id
into `localStorage` and return it. -/
def getSessionId (randHex : String) (st : SessionState) :
    String × SessionState :=
  let sid := jsTrim st.value
  if sid = "" then
    let sid2 := "demo-" ++ jsSlice randHex 2 10
    (sid2, { value := sid2, stored := some sid2 })
  else
    (sid, { value := st.value, stored := some sid })

/-- The `change` listener on `#sessionId` (lines 256–259): persist the
trimmed value only when it is non-empty. -/
def onSessionEdit (st : SessionState) : SessionState :=
  let sid := jsTrim st.value
  if sid = "" then st else { st with stored := some sid }

/-- `Math.random().toString(16)` can only produce `"0"` (for the draw
`0`) or `"0."` followed by at least one lowercase hex digit. -/
def isLowerHexDigit (c : Char) : Bool :=
  ('0' ≤ c && c ≤ '9') || ('a' ≤ c && c ≤ 'f')

/-- The set of strings `Math.random().toString(16)` can return for a
draw in `[0, 1)`. -/
def ValidRandHex (s : String) : Prop :=
  s = "0" ∨ ∃ ds : List Char,
    ds ≠ [] ∧ ds.all isLowerHexDigit = true ∧ s.data = '0' :: '.' :: ds

/-- `s` matches `^demo-[0-9a-f]{8}$`: the literal prefix `demo-`
followed by exactly 8 lowercase hex digits. -/
def matchesDemo8 (s : String) : Bool :=
  match s.data with
  | 'd' :: 'e' :: 'm' :: 'o' :: '-' :: suf =>
    suf.length == 8 && suf.all isLowerHexDigit
  | _ => false

/-- `s` is the literal prefix `demo-` followed by at most 8 lowercase
hex digits (what `getSessionId` actually guarantees). -/
def demoPrefixed (s : String) : Prop :=
  ∃ suf : List Char, s.data = 'd' :: 'e' :: 'm' :: 'o' :: '-' :: suf ∧
    suf.all isLowerHexDigit = true ∧ suf.length ≤ 8

/-! ## Message segmentation (`appendBubble`, lines 86–113) -/

/-- One display segment of a chat message: a prose `div`, or a
`pre.codeblock`.  The language slot of `code` holds the raw first line
removed by `lines.shift()` when it trim-matched the identifier regex,
`none` when no line was removed. -/
inductive Segment where
  | prose (text : String)
  | code (language : Option String) (body : String)
deriving DecidableEq, Repr

/-- Prepend a character to the first piece of a split result. -/
def consHead (c : Char) : List (List Char) → List (List Char)
  | [] => [[c]]
  | p :: ps => (c :: p) :: ps

/-- JS `text.split("\x60\x60\x60")`: split on the leftmost occurrence of
the fence, repeatedly. -/
def splitFence : List Char → List (List Char)
  | [] => [[]]
  | [c] => [[c]]
  | [c, d] => [[c, d]]
  | c :: d :: e :: rest =>
    if c = btick ∧ d = btick ∧ e = btick then [] :: splitFence rest
    else consHead c (splitFence (d :: e :: rest))

/-- JS `part.split("\n")`. -/
def splitNl : List Char → List (List Char)
  | [] => [[]]
  | c :: rest =>
    if c = '\n' then [] :: splitNl rest else consHead c (splitNl rest)

/-- JS `lines.join("\n")`. -/
def joinNl : List (List Char) → List Char
  | [] => []
  | [p] => p
  | p :: q :: ps => p ++ '\n' :: joinNl (q :: ps)

/-- The code branch of the `forEach` (lines 100–111): split the piece
into lines, drop the first line when its trim matches the identifier
regex (recording it as the language), re-join, and strip leading
newlines. -/
def mkCode (piece : List Char) : Segment :=
  match splitNl piece with
  | [] => Segment.code none (dropLeadNl piece).asString
  | l0 :: rest =>
    if identLike (jsTrimL l0) then
      Segment.code (some l0.asString) (dropLeadNl (joinNl rest)).asString
    else
      Segment.code none (dropLeadNl (joinNl (l0 :: rest))).asString

/-- The alternating `forEach` over the split pieces (lines 93–112):
even positions are prose (emitted only when trim-non-empty), odd
positions are code.  `proseTurn` is `true` at even positions. -/
def segsAux : Bool → List (List Char) → List Segment
  | _, [] => []
  | proseTurn, p :: rest =>
    if proseTurn then
      (if jsTrimL p = [] then [] else [Segment.prose p.asString])
        ++ segsAux false rest
    else
      mkCode p :: segsAux true rest

/-- The full segmentation of `appendBubble` on a character list: with a
single piece (no fence anywhere) the whole text becomes one prose
segment even when blank; otherwise pieces alternate prose/code. -/
def segmentCL (l : List Char) : List Segment :=
  let parts := splitFence l
  if parts.length = 1 then [Segment.prose l.asString]
  else segsAux true parts

/-- `segment`: the text-to-segments function of `appendBubble`. -/
def segment (s : String) : List Segment := segmentCL s.data

/-! ## Reconstruction of a message from segments (`pasteResultToChat`,
lines 226–239, generalised) -/

/-- Render one segment back to text the way `pasteResultToChat` embeds
a code block: the fence, the language line, the body, a newline and the
closing fence. -/
def renderSegCL : Segment → List Char
  | Segment.prose t => t.data
  | Segment.code l b =>
    fence ++ ((l.getD "").data ++ '\n' :: (b.data ++ ['\n'])) ++ fence

/-- Join rendered segments with single newlines (as `pasteResultToChat`
separates its blocks). -/
def joinSegsCL : List Segment → List Char
  | [] => []
  | [s] => renderSegCL s
  | s :: t :: rest => renderSegCL s ++ '\n' :: joinSegsCL (t :: rest)

/-- String-level reconstruction. -/
def joinSegs (ss : List Segment) : String := (joinSegsCL ss).asString

/-- The text that follows an already-rendered segment: nothing when no
segments remain, otherwise the newline separator and the rest. -/
def tailJoin : List Segment → List Char
  | [] => []
  | s :: rest => '\n' :: joinSegsCL (s :: rest)

/-- A segment that survives the reconstruction round trip: prose is
trim-non-empty and backtick-free; code has a present language matching
the identifier regex, and a backtick-free body that does not begin with
a newline. -/
def wfSeg : Segment → Bool
  | Segment.prose t =>
    !(jsTrimL t.data).isEmpty && t.data.all (fun c => c != btick)
  | Segment.code l b =>
    (match l with | some s => identLike s.data | none => false)
      && b.data.all (fun c => c != btick)
      && (match b.data with | '\n' :: _ => false | _ => true)

/-- Is the segment a prose segment? -/
def isProse : Segment → Bool
  | Segment.prose _ => true
  | Segment.code _ _ => false

/-- No two adjacent prose segments (adjacent prose merges when joined,
so it cannot round-trip). -/
def noAdjProse : List Segment → Bool
  | [] => true
  | [_] => true
  | a :: b :: rest => !(isProse a && isProse b) && noAdjProse (b :: rest)

/-- A well-formed segment sequence: non-empty, well-formed entries, no
two adjacent prose segments. -/
def wellFormed (ss : List Segment) : Bool :=
  !ss.isEmpty && ss.all wfSeg && noAdjProse ss

/-- Segment equivalence: prose up to surrounding whitespace, code up to
trailing newlines of the body (the reconstruction re-adds the newline
before the closing fence). -/
def segEqvB : Segment → Segment → Bool
  | Segment.prose a, Segment.prose b => jsTrimL a.data == jsTrimL b.data
  | Segment.code l a, Segment.code m b =>
    (l == m) && (rstripNl a.data == rstripNl b.data)
  | Segment.prose _, Segment.code _ _ => false
  | Segment.code _ _, Segment.prose _ => false

/-- Pointwise equivalence of segment sequences. -/
def seqEqvB : List Segment → List Segment → Bool
  | [], [] => true
  | a :: as_, b :: bs => segEqvB a b && seqEqvB as_ bs
  | [], _ :: _ => false
  | _ :: _, [] => false

/-! ## Form handlers (`sendChat`, lines 136–156; `runCheck`,
lines 200–224) -/

/-- One transcript bubble: role and text. -/
structure Bubble where
  role : String
  text : String
deriving DecidableEq, Repr

/-- The view state touched by `sendChat` and `runCheck`. -/
structure UiState where
  chatInput : String
  chatLog : List Bubble
  sessionValue : String
  stored : Option String
  codeInput : String
  resultSummary : String
  violationsView : List RawViolation
  fixedCodeView : String
  unifiedDiffView : String
deriving DecidableEq, Repr

/-- The body of a `POST /agent` request. -/
structure AgentRequest where
  session_id : String
  input : String
  debug : Bool
deriving DecidableEq, Repr

/-- The body of a `POST /check` request. -/
structure CheckRequest where
  session_id : String
  language : String
  code : String
  auto_fix : Bool
  include_diff : Bool
deriving DecidableEq, Repr

/-- The synchronous prefix of `sendChat` (lines 136–148) up to the
`fetch`: on blank input return immediately with nothing issued;
otherwise resolve the session id, append the user bubble and the
loading bubble, clear the input, and issue the request. -/
def sendChatPre (randHex : String) (st : UiState) :
    Option AgentRequest × UiState :=
  let msg := st.chatInput
  if jsTrim msg = "" then (none, st)
  else
    let out := getSessionId randHex ⟨st.sessionValue, st.stored⟩
    (some { session_id := out.1, input := msg, debug := false },
      { st with
          sessionValue := out.2.value
          stored := out.2.stored
          chatLog := st.chatLog
            ++ [⟨"user", msg⟩, ⟨"assistant", "생각 중…"⟩]
          chatInput := "" })

/-- The synchronous prefix of `runCheck` (lines 200–219) up to the
`fetch`: on blank code set only the summary text to the input-required
prompt and return; otherwise resolve the session id, reset the result
panes and issue the request. -/
def runCheckPre (randHex : String) (autoFix includeDiff : Bool)
    (st : UiState) : Option CheckRequest × UiState :=
  let code := st.codeInput
  if jsTrim code = "" then
    (none, { st with resultSummary := "코드를 입력해야 한다." })
  else
    let out := getSessionId randHex ⟨st.sessionValue, st.stored⟩
    (some { session_id := out.1, language := "python", code := code,
            auto_fix := autoFix, include_diff := includeDiff },
      { st with
          sessionValue := out.2.value
          stored := out.2.stored
          resultSummary := "실행 중…"
          violationsView := []
          fixedCodeView := ""
          unifiedDiffView := "" })

end AppJs

namespace AppJs

/-! ## Basic helper lemmas -/

/-- `dropWhile` is the identity when no element satisfies the
predicate. -/
theorem dropWhile_all_false {p : Char → Bool} :
    ∀ l : List Char, (∀ c ∈ l, p c = false) → l.dropWhile p = l
  | [], _ => rfl
  | a :: l, h => by
    have ha : p a = false := h a (by simp)
    have ih := dropWhile_all_false l (fun c hc => h c (by simp [hc]))
    simp [List.dropWhile_cons, ha, ih]

/-- Trimming is the identity on whitespace-free character lists. -/
theorem jsTrimL_no_ws (l : List Char) (h : ∀ c ∈ l, isJsWs c = false) :
    jsTrimL l = l := by
  unfold jsTrimL
  rw [dropWhile_all_false l h]
  rw [dropWhile_all_false l.reverse (fun c hc => h c (List.mem_reverse.mp hc))]
  exact List.reverse_reverse l

/-- Trimming is the identity on whitespace-free strings. -/
theorem jsTrim_no_ws (s : String) (h : ∀ c ∈ s.data, isJsWs c = false) :
    jsTrim s = s := by
  show (jsTrimL s.data).asString = s
  rw [jsTrimL_no_ws s.data h]
  rfl

/-- A whitespace character is not a lowercase hex digit. -/
theorem ws_not_hex (c : Char) (h : isJsWs c = true) :
    isLowerHexDigit c = false := by
  simp only [isJsWs, Bool.or_eq_true, decide_eq_true_eq] at h
  rcases h with ((((h | h) | h) | h) | h) | h <;> subst h <;> decide

/-- A lowercase hex digit is not whitespace. -/
theorem hex_not_ws (c : Char) (h : isLowerHexDigit c = true) :
    isJsWs c = false := by
  cases hw : isJsWs c
  · rfl
  · rw [ws_not_hex c hw] at h
    exact absurd h (by decide)

/-- A whitespace character is not in the identifier class. -/
theorem ws_not_ident (c : Char) (h : isJsWs c = true) :
    isIdentChar c = false := by
  simp only [isJsWs, Bool.or_eq_true, decide_eq_true_eq] at h
  rcases h with ((((h | h) | h) | h) | h) | h <;> subst h <;> decide

/-- An identifier-class character is not whitespace. -/
theorem ident_not_ws (c : Char) (h : isIdentChar c = true) :
    isJsWs c = false := by
  cases hw : isJsWs c
  · rfl
  · rw [ws_not_ident c hw] at h
    exact absurd h (by decide)

/-- An identifier-class character is not a backtick. -/
theorem ident_ne_btick (c : Char) (h : isIdentChar c = true) : c ≠ btick := by
  intro he
  subst he
  exact absurd h (by decide)

/-- An identifier-class character is not a newline. -/
theorem ident_ne_nl (c : Char) (h : isIdentChar c = true) : c ≠ '\n' := by
  intro he
  subst he
  exact absurd h (by decide)

/-- A string is empty iff its character list is. -/
theorem string_eq_empty_iff (s : String) : s = "" ↔ s.data = [] := by
  constructor
  · intro h
    rw [h]
  · intro h
    cases s
    simp at h
    rw [h]

/-- `asString` undoes `data`. -/
theorem asString_data (s : String) : s.data.asString = s := rfl

/-- `consHead` on a non-empty split result. -/
theorem consHead_cons (c : Char) (p : List Char) (ps : List (List Char)) :
    consHead c (p :: ps) = (c :: p) :: ps := rfl

/-! ## Lemmas about the fence split -/

/-- A character other than a backtick never starts a fence. -/
theorem splitFence_cons_ne (c : Char) (rest : List Char) (h : c ≠ btick) :
    splitFence (c :: rest) = consHead c (splitFence rest) := by
  match rest with
  | [] => rfl
  | [d] => rfl
  | d :: e :: r =>
    show splitFence (c :: d :: e :: r) = consHead c (splitFence (d :: e :: r))
    rw [splitFence, if_neg]
    intro hc
    exact h hc.1

/-- Splitting at a fence. -/
theorem splitFence_fence (r : List Char) :
    splitFence (btick :: btick :: btick :: r) = [] :: splitFence r := by
  rw [splitFence, if_pos ⟨rfl, rfl, rfl⟩]

/-- Splitting a backtick-free prefix followed by a fence. -/
theorem splitFence_append : ∀ (p : List Char), (∀ c ∈ p, c ≠ btick) →
    ∀ r : List Char,
      splitFence (p ++ btick :: btick :: btick :: r) = p :: splitFence r
  | [], _, r => splitFence_fence r
  | a :: p, h, r => by
    have ha : a ≠ btick := h a (by simp)
    rw [List.cons_append, splitFence_cons_ne a _ ha,
      splitFence_append p (fun c hc => h c (by simp [hc])) r, consHead_cons]

/-- A backtick-free text is a single piece. -/
theorem splitFence_all_ne : ∀ (p : List Char), (∀ c ∈ p, c ≠ btick) →
    splitFence p = [p]
  | [], _ => rfl
  | a :: p, h => by
    have ha : a ≠ btick := h a (by simp)
    rw [splitFence_cons_ne a p ha,
      splitFence_all_ne p (fun c hc => h c (by simp [hc])), consHead_cons]

/-! ## Lemmas about the line split and join -/

/-- A non-newline head character is prepended to the first line. -/
theorem splitNl_cons_ne (c : Char) (rest : List Char) (h : c ≠ '\n') :
    splitNl (c :: rest) = consHead c (splitNl rest) := by
  rw [splitNl, if_neg h]

/-- A newline starts a fresh line. -/
theorem splitNl_cons_nl (rest : List Char) :
    splitNl ('\n' :: rest) = [] :: splitNl rest := by
  rw [splitNl, if_pos rfl]

/-- The line split never yields the empty list. -/
theorem splitNl_ne_nil : ∀ l : List Char, splitNl l ≠ []
  | [] => by simp [splitNl]
  | c :: rest => by
    by_cases h : c = '\n'
    · subst h
      rw [splitNl_cons_nl]
      simp
    · rw [splitNl_cons_ne c rest h]
      cases hsp : splitNl rest with
      | nil => simp [consHead]
      | cons p ps => simp [consHead]

/-- Splitting a newline-free prefix followed by a newline. -/
theorem splitNl_append : ∀ (s : List Char), (∀ c ∈ s, c ≠ '\n') →
    ∀ r : List Char, splitNl (s ++ '\n' :: r) = s :: splitNl r
  | [], _, r => splitNl_cons_nl r
  | a :: s, h, r => by
    have ha : a ≠ '\n' := h a (by simp)
    rw [List.cons_append, splitNl_cons_ne a _ ha,
      splitNl_append s (fun c hc => h c (by simp [hc])) r, consHead_cons]

/-- `join("\n")` of a two-or-more element list. -/
theorem joinNl_pair (p q : List Char) (ps : List (List Char)) :
    joinNl (p :: q :: ps) = p ++ '\n' :: joinNl (q :: ps) := rfl

/-- `joinNl` after `consHead`. -/
theorem joinNl_consHead : ∀ (c : Char) (L : List (List Char)), L ≠ [] →
    joinNl (consHead c L) = c :: joinNl L
  | c, [], h => absurd rfl h
  | _, [_], _ => rfl
  | c, p :: q :: ps, _ => by
    show joinNl ((c :: p) :: q :: ps) = c :: joinNl (p :: q :: ps)
    rw [joinNl_pair, joinNl_pair]
    rfl

/-- `lines.join("\n")` undoes `part.split("\n")`. -/
theorem joinNl_splitNl : ∀ l : List Char, joinNl (splitNl l) = l
  | [] => rfl
  | c :: rest => by
    by_cases h : c = '\n'
    · subst h
      rw [splitNl_cons_nl]
      cases hsp : splitNl rest with
      | nil => exact absurd hsp (splitNl_ne_nil rest)
      | cons p ps =>
        have ih := joinNl_splitNl rest
        rw [hsp] at ih
        rw [joinNl_pair]
        simp [ih]
    · rw [splitNl_cons_ne c rest h,
        joinNl_consHead c _ (splitNl_ne_nil rest), joinNl_splitNl rest]

/-! ## Lemmas about the code branch -/

/-- When the first line trim-matches the identifier regex it is shifted
off and recorded as the language. -/
theorem mkCode_tag (piece l0 : List Char) (rest : List (List Char))
    (hsp : splitNl piece = l0 :: rest) (h : identLike (jsTrimL l0) = true) :
    mkCode piece
      = Segment.code (some l0.asString) (dropLeadNl (joinNl rest)).asString := by
  unfold mkCode
  rw [hsp]
  simp [h]

/-- When the first line does not trim-match the identifier regex, no
line is dropped: the body is the whole piece with leading newlines
stripped. -/
theorem mkCode_no_tag (piece l0 : List Char) (rest : List (List Char))
    (hsp : splitNl piece = l0 :: rest) (h : identLike (jsTrimL l0) = false) :
    mkCode piece = Segment.code none (dropLeadNl piece).asString := by
  unfold mkCode
  rw [hsp]
  simp only [h, Bool.false_eq_true, if_false]
  rw [← hsp, joinNl_splitNl]

/-! ## Lemmas about trimming, for the round-trip claim -/

/-- `data` undoes `asString`. -/
theorem data_asString (l : List Char) : (List.asString l).data = l := rfl

/-- A leading whitespace character does not change the trim. -/
theorem jsTrimL_cons_ws (c : Char) (l : List Char) (h : isJsWs c = true) :
    jsTrimL (c :: l) = jsTrimL l := by
  simp [jsTrimL, List.dropWhile_cons, h]

/-- Dropping a trailing whitespace character from the reversed side. -/
theorem revDrop_append_ws (c : Char) (l : List Char) (h : isJsWs c = true) :
    ((l ++ [c]).reverse.dropWhile isJsWs).reverse
      = (l.reverse.dropWhile isJsWs).reverse := by
  simp [List.reverse_append, List.dropWhile_cons, h]

/-- On a list starting with non-whitespace, trimming only acts on the
right end. -/
theorem jsTrimL_cons_not_ws (a : Char) (x : List Char) (ha : isJsWs a = false) :
    jsTrimL (a :: x) = ((a :: x).reverse.dropWhile isJsWs).reverse := by
  simp [jsTrimL, List.dropWhile_cons, ha]

/-- A trailing whitespace character does not change the trim. -/
theorem jsTrimL_append_ws (c : Char) (h : isJsWs c = true) :
    ∀ l : List Char, jsTrimL (l ++ [c]) = jsTrimL l
  | [] => by simp [jsTrimL, List.dropWhile_cons, h]
  | a :: l => by
    by_cases ha : isJsWs a
    · rw [List.cons_append, jsTrimL_cons_ws a _ ha, jsTrimL_append_ws c h l,
        jsTrimL_cons_ws a l ha]
    · rw [List.cons_append, jsTrimL_cons_not_ws a _ (by simp [ha]),
        jsTrimL_cons_not_ws a l (by simp [ha]),
        show a :: (l ++ [c]) = (a :: l) ++ [c] from rfl,
        revDrop_append_ws c (a :: l) h]

/-- Wrapping a list in the newline separators added by the
reconstruction does not change its trim. -/
theorem jsTrimL_wrap (t : List Char) :
    jsTrimL ('\n' :: t ++ ['\n']) = jsTrimL t := by
  rw [show ('\n' :: t ++ ['\n']) = '\n' :: (t ++ ['\n']) from rfl,
    jsTrimL_cons_ws _ _ (by decide), jsTrimL_append_ws '\n' (by decide) t]

/-- A trailing newline does not change the trim. -/
theorem jsTrimL_snoc_nl (t : List Char) :
    jsTrimL (t ++ ['\n']) = jsTrimL t :=
  jsTrimL_append_ws '\n' (by decide) t

/-- A trailing newline does not change the trailing-newline-stripped
form. -/
theorem rstripNl_append_nl (l : List Char) :
    rstripNl (l ++ ['\n']) = rstripNl l := by
  simp [rstripNl, List.reverse_append, List.dropWhile_cons]

/-! ## Well-formedness elimination and piece equivalences -/

/-- Unpack well-formedness of a prose segment. -/
theorem wf_prose_elim (t : String) (h : wfSeg (Segment.prose t) = true) :
    jsTrimL t.data ≠ [] ∧ ∀ c ∈ t.data, c ≠ btick := by
  simp only [wfSeg, Bool.and_eq_true, Bool.not_eq_true'] at h
  obtain ⟨h1, h2⟩ := h
  constructor
  · intro he
    rw [he] at h1
    simp at h1
  · intro c hc
    exact bne_iff_ne.mp ((List.all_eq_true.mp h2) c hc)

/-- Unpack well-formedness of a code segment. -/
theorem wf_code_elim (l : Option String) (b : String)
    (h : wfSeg (Segment.code l b) = true) :
    ∃ s, l = some s ∧ identLike s.data = true
      ∧ (∀ c ∈ b.data, c ≠ btick)
      ∧ (b.data = [] ∨ ∃ c r, b.data = c :: r ∧ c ≠ '\n') := by
  cases l with
  | none => simp [wfSeg] at h
  | some s =>
    simp only [wfSeg, Bool.and_eq_true] at h
    obtain ⟨⟨h1, h2⟩, h3⟩ := h
    refine ⟨s, rfl, h1,
      fun c hc => bne_iff_ne.mp ((List.all_eq_true.mp h2) c hc), ?_⟩
    cases hb : b.data with
    | nil => exact Or.inl rfl
    | cons c r =>
      rw [hb] at h3
      refine Or.inr ⟨c, r, rfl, ?_⟩
      intro he
      subst he
      simp at h3

/-- Adjacency constraints propagate to the tail. -/
theorem noAdjProse_tail (x : Segment) (rest : List Segment)
    (h : noAdjProse (x :: rest) = true) : noAdjProse rest = true := by
  cases rest with
  | nil => rfl
  | cons y r =>
    simp only [noAdjProse, Bool.and_eq_true] at h
    exact h.2

/-- Equivalence of a re-parsed prose piece with the original prose
segment. -/
theorem prose_eqv (p : List Char) (t : String)
    (h : jsTrimL p = jsTrimL t.data) :
    segEqvB (Segment.prose p.asString) (Segment.prose t) = true := by
  simp [segEqvB, data_asString, h]

/-- Equivalence of the re-parsed code piece with the original code
segment: the language line is recovered exactly and the body gains only
a trailing newline. -/
theorem code_eqv (s b : String) (hs : identLike s.data = true)
    (hb : b.data = [] ∨ ∃ c r, b.data = c :: r ∧ c ≠ '\n') :
    segEqvB (mkCode (s.data ++ '\n' :: (b.data ++ ['\n'])))
      (Segment.code (some s) b) = true := by
  have hall : s.data.all isIdentChar = true := by
    simp only [identLike, Bool.and_eq_true] at hs
    exact hs.2
  have hnl : ∀ c ∈ s.data, c ≠ '\n' :=
    fun c hc => ident_ne_nl c ((List.all_eq_true.mp hall) c hc)
  have htrim : jsTrimL s.data = s.data :=
    jsTrimL_no_ws s.data
      (fun c hc => ident_not_ws c ((List.all_eq_true.mp hall) c hc))
  rw [mkCode_tag _ s.data (splitNl (b.data ++ ['\n']))
      (splitNl_append s.data hnl _) (by rw [htrim]; exact hs),
    joinNl_splitNl]
  simp only [segEqvB, asString_data, data_asString, Bool.and_eq_true,
    beq_iff_eq]
  refine ⟨trivial, ?_⟩
  rcases hb with hb | ⟨c, r, hb, hc⟩
  · rw [hb]
    decide
  · rw [hb, show (c :: r) ++ ['\n'] = c :: (r ++ ['\n']) from rfl]
    rw [show dropLeadNl (c :: (r ++ ['\n'])) = c :: (r ++ ['\n']) from by
      simp [dropLeadNl, List.dropWhile_cons, hc]]
    rw [show c :: (r ++ ['\n']) = (c :: r) ++ ['\n'] from rfl,
      rstripNl_append_nl]

/-! ## Shape lemmas for the reconstruction -/

/-- `joinSegsCL` on two or more segments. -/
theorem joinSegsCL_pair (x y : Segment) (r : List Segment) :
    joinSegsCL (x :: y :: r) = renderSegCL x ++ '\n' :: joinSegsCL (y :: r) := rfl

/-- `joinSegsCL` of a cons in terms of `tailJoin`. -/
theorem joinSegsCL_cons (s : Segment) (rest : List Segment) :
    joinSegsCL (s :: rest) = renderSegCL s ++ tailJoin rest := by
  cases rest with
  | nil => simp [joinSegsCL, tailJoin]
  | cons t r => rfl

/-- The split of a prose piece, a fence, a code piece, a fence, and a
remainder. -/
theorem splitFence_chunk (p M r : List Char) (hp : ∀ c ∈ p, c ≠ btick)
    (hM : ∀ c ∈ M, c ≠ btick) :
    splitFence (p ++ btick :: btick :: btick ::
        (M ++ btick :: btick :: btick :: r))
      = p :: M :: splitFence r := by
  rw [splitFence_append p hp, splitFence_append M hM]

/-- Two alternating steps of `segsAux`. -/
theorem segsAux_two (p M : List Char) (ps : List (List Char)) :
    segsAux true (p :: M :: ps)
      = (if jsTrimL p = [] then [] else [Segment.prose p.asString])
        ++ mkCode M :: segsAux true ps := by
  simp [segsAux]

/-- `seqEqvB` on two conses. -/
theorem seqEqvB_cons (a b : Segment) (as_ bs : List Segment) :
    seqEqvB (a :: as_) (b :: bs) = (segEqvB a b && seqEqvB as_ bs) := rfl

/-- The prose piece wrapped by the reconstruction is backtick-free. -/
theorem prose_piece_btick_free (t : String) (ht : ∀ c ∈ t.data, c ≠ btick) :
    ∀ c ∈ '\n' :: t.data ++ ['\n'], c ≠ btick := by
  intro c hc
  rcases List.mem_cons.mp hc with h1 | h1
  · subst h1
    decide
  · rcases List.mem_append.mp h1 with h2 | h2
    · exact ht c h2
    · simp only [List.mem_singleton] at h2
      subst h2
      decide

/-- A prose piece with only a trailing newline added is backtick-free. -/
theorem prose_snoc_btick_free (t : String) (ht : ∀ c ∈ t.data, c ≠ btick) :
    ∀ c ∈ t.data ++ ['\n'], c ≠ btick := by
  intro c hc
  rcases List.mem_append.mp hc with h2 | h2
  · exact ht c h2
  · simp only [List.mem_singleton] at h2
    subst h2
    decide

/-- The code piece produced by the reconstruction is backtick-free. -/
theorem code_piece_btick_free (s b : String) (hs : identLike s.data = true)
    (hb : ∀ c ∈ b.data, c ≠ btick) :
    ∀ c ∈ s.data ++ '\n' :: (b.data ++ ['\n']), c ≠ btick := by
  have hall : s.data.all isIdentChar = true := by
    simp only [identLike, Bool.and_eq_true] at hs
    exact hs.2
  intro c hc
  rcases List.mem_append.mp hc with h1 | h1
  · exact ident_ne_btick c ((List.all_eq_true.mp hall) c h1)
  · rcases List.mem_cons.mp h1 with h2 | h2
    · subst h2
      decide
    · rcases List.mem_append.mp h2 with h3 | h3
      · exact hb c h3
      · simp only [List.mem_singleton] at h3
        subst h3
        decide

/-- `segmentCL` unfolded. -/
theorem segmentCL_eq (l : List Char) :
    segmentCL l = if (splitFence l).length = 1 then [Segment.prose l.asString]
      else segsAux true (splitFence l) := rfl

/-- Tail invariant of the round trip: re-segmenting the text that
follows an already-consumed block reproduces the remaining segments up
to equivalence. -/
theorem roundtrip_aux : ∀ ss : List Segment, ss.all wfSeg = true →
    noAdjProse ss = true →
    seqEqvB (segsAux true (splitFence (tailJoin ss))) ss = true
  | [], _, _ => by decide
  | [Segment.prose t], h1, _ => by
    simp only [List.all_cons, List.all_nil, Bool.and_eq_true, Bool.and_true] at h1
    obtain ⟨htne, htbt⟩ := wf_prose_elim t h1
    have hshape : tailJoin [Segment.prose t] = '\n' :: t.data := rfl
    rw [hshape, splitFence_all_ne _ (fun c hc => by
      rcases List.mem_cons.mp hc with h | h
      · subst h
        decide
      · exact htbt c h)]
    have hseg : segsAux true ['\n' :: t.data]
        = [Segment.prose ('\n' :: t.data).asString] := by
      simp only [segsAux, if_true, List.append_nil]
      rw [if_neg (by rw [jsTrimL_cons_ws _ _ (by decide)]; exact htne)]
    rw [hseg, seqEqvB_cons,
      prose_eqv ('\n' :: t.data) t (jsTrimL_cons_ws _ _ (by decide))]
    rfl
  | Segment.prose _ :: Segment.prose _ :: _, _, h2 => by
    simp [noAdjProse, isProse] at h2
  | Segment.prose t :: Segment.code l b :: rest, h1, h2 => by
    simp only [List.all_cons, Bool.and_eq_true] at h1
    obtain ⟨hwt, hwc, hwrest⟩ := h1
    obtain ⟨htne, htbt⟩ := wf_prose_elim t hwt
    obtain ⟨s, rfl, hsid, hbbt, hbody⟩ := wf_code_elim l b hwc
    have ih := roundtrip_aux rest hwrest
      (noAdjProse_tail _ _ (noAdjProse_tail _ _ h2))
    have hshape : tailJoin (Segment.prose t :: Segment.code (some s) b :: rest)
        = ('\n' :: t.data ++ ['\n']) ++ btick :: btick :: btick ::
            ((s.data ++ '\n' :: (b.data ++ ['\n']))
              ++ btick :: btick :: btick :: tailJoin rest) := by
      show '\n' :: joinSegsCL
          (Segment.prose t :: Segment.code (some s) b :: rest) = _
      rw [joinSegsCL_pair, joinSegsCL_cons]
      simp [renderSegCL, fence, List.append_assoc]
    rw [hshape,
      splitFence_chunk _ _ _ (prose_piece_btick_free t htbt)
        (code_piece_btick_free s b hsid hbbt),
      segsAux_two, if_neg (by rw [jsTrimL_wrap]; exact htne),
      List.singleton_append, seqEqvB_cons, seqEqvB_cons,
      prose_eqv _ t (jsTrimL_wrap t.data), code_eqv s b hsid hbody, ih]
    rfl
  | Segment.code l b :: rest, h1, h2 => by
    simp only [List.all_cons, Bool.and_eq_true] at h1
    obtain ⟨hwc, hwrest⟩ := h1
    obtain ⟨s, rfl, hsid, hbbt, hbody⟩ := wf_code_elim l b hwc
    have ih := roundtrip_aux rest hwrest (noAdjProse_tail _ _ h2)
    have hshape : tailJoin (Segment.code (some s) b :: rest)
        = ['\n'] ++ btick :: btick :: btick ::
            ((s.data ++ '\n' :: (b.data ++ ['\n']))
              ++ btick :: btick :: btick :: tailJoin rest) := by
      show '\n' :: joinSegsCL (Segment.code (some s) b :: rest) = _
      rw [joinSegsCL_cons]
      simp [renderSegCL, fence, List.append_assoc]
    rw [hshape,
      splitFence_chunk _ _ _
        (fun c hc => by
          simp only [List.mem_singleton] at hc
          subst hc
          decide)
        (code_piece_btick_free s b hsid hbbt),
      segsAux_two, if_pos (by decide), List.nil_append, seqEqvB_cons,
      code_eqv s b hsid hbody, ih]
    rfl

/-! ## Claim C1: normalisation of an empty check response -/

/-- C1 counterexample: on the empty raw response the summary placeholder
is the Korean literal `(summary 없음)`, not the English literal
`no summary` the claim states. -/
theorem c1_summary_literal_counterexample :
    (renderCheckResult ⟨none, RawViolations.absent, none, none⟩).summary
      ≠ "no summary" := by decide

/-- C1 (amended): for a raw check response with no `summary`,
`violations`, `fixed_code` or `unified_diff` fields, `renderCheckResult`
produces the literal placeholder `(summary 없음)` (Korean for
"no summary"), an empty violation sequence, and empty strings — never
the text `undefined` or `null` — and a non-array `violations` field is
likewise coerced to the empty sequence. -/
theorem c1_empty_response_normalisation :
    renderCheckResult ⟨none, RawViolations.absent, none, none⟩
        = ⟨"(summary 없음)", [], "", ""⟩
      ∧ renderCheckResult ⟨none, RawViolations.nonList, none, none⟩
        = ⟨"(summary 없음)", [], "", ""⟩
      ∧ "(summary 없음)" ≠ "undefined" ∧ "(summary 없음)" ≠ "null"
      ∧ ("" : String) ≠ "undefined" ∧ ("" : String) ≠ "null" := by
  refine ⟨rfl, rfl, by decide, by decide, by decide, by decide⟩

/-! ## Claim C2: severity display -/

/-- C2 counterexample: the unrecognised severity `CRITICAL` is displayed
as its lower-casing `critical`, not as the fallback `warning`. -/
theorem c2_severity_counterexample :
    displaySeverity (some "CRITICAL") = "critical"
      ∧ displaySeverity (some "CRITICAL") ≠ "warning" := by
  exact ⟨by decide, by decide⟩

/-- C2 (amended): the displayed severity is the raw severity string
lower-cased whenever the raw string is present and non-empty — whether
or not it is a recognised value — and is the literal `warning` exactly
when the raw severity is absent or the empty string. -/
theorem c2_severity_display :
    displaySeverity none = "warning"
      ∧ displaySeverity (some "") = "warning"
      ∧ ∀ s : String, s ≠ "" → displaySeverity (some s) = jsToLower s := by
  refine ⟨by decide, by decide, ?_⟩
  intro s hs
  simp [displaySeverity, jsOrElse, hs]

/-- C2 witness. -/
theorem c2_severity_display_witness :
    ("Error" : String) ≠ "" ∧ displaySeverity (some "Error") = jsToLower "Error" :=
  ⟨by decide, c2_severity_display.2.2 "Error" (by decide)⟩

/-! ## Claim C7: line-range display -/

/-- C7 counterexample: with `start_line` 3 and `end_line` 0 both fields
are present, yet the display is `3`, not `3~0` — JS truthiness treats
the present value `0` as absent. -/
theorem c7_line_range_counterexample :
    displayLine (some 3) (some 0) = "3" ∧ displayLine (some 3) (some 0) ≠ "3~0" := by
  exact ⟨by decide, by decide⟩

/-- C7 (amended): the displayed line range is `start~end` when both
`start_line` and `end_line` are present and non-zero, `start` when
`start_line` is present and non-zero but `end_line` is absent or zero,
and the literal `-` when `start_line` is absent or zero. -/
theorem c7_line_range_display : ∀ a b : Int,
    (a ≠ 0 → b ≠ 0 → displayLine (some a) (some b) = toString a ++ "~" ++ toString b)
      ∧ (a ≠ 0 → displayLine (some a) none = toString a)
      ∧ (a ≠ 0 → displayLine (some a) (some 0) = toString a)
      ∧ displayLine none (some b) = "-"
      ∧ displayLine none none = "-"
      ∧ displayLine (some 0) (some b) = "-"
      ∧ displayLine (some 0) none = "-" := by
  intro a b
  refine ⟨?_, ?_, ?_, ?_, ?_, ?_, ?_⟩ <;>
    simp +contextual [displayLine, jsTruthyInt, optIntStr]

/-- C7 witness. -/
theorem c7_line_range_display_witness :
    (3 : Int) ≠ 0 ∧ (5 : Int) ≠ 0
      ∧ displayLine (some 3) (some 5) = toString (3 : Int) ++ "~" ++ toString (5 : Int)
      ∧ displayLine (some 3) none = toString (3 : Int) :=
  ⟨by decide, by decide,
    (c7_line_range_display 3 5).1 (by decide) (by decide),
    (c7_line_range_display 3 5).2.1 (by decide)⟩

/-! ## Claim C3: session-id synthesis -/

/-- C3 counterexample: `Math.random()` can return `0.5`, whose radix-16
rendering is `0.8`; then `slice(2, 10)` yields the single digit `8` and
the synthesized id is `demo-8`, which does not match
`^demo-[0-9a-f]{8}$`. -/
theorem c3_session_id_counterexample :
    ValidRandHex "0.8"
      ∧ jsTrim "" = ""
      ∧ (getSessionId "0.8" ⟨"", none⟩).1 = "demo-8"
      ∧ matchesDemo8 "demo-8" = false :=
  ⟨Or.inr ⟨['8'], by decide, by decide, by decide⟩, by decide, by decide, by decide⟩

/-- C3 (amended): when the stored value is empty after trimming,
`getSessionId` returns a non-empty string consisting of the literal
prefix `demo-` followed by **at most** 8 lowercase hex digits (exactly 8
only when the random draw's hex expansion has at least 8 fractional
digits), and every subsequent call without an intervening edit returns
that same value. -/
theorem c3_session_id_synthesis :
    ∀ (r r2 : String) (st : SessionState), ValidRandHex r →
      jsTrim st.value = "" →
      (getSessionId r st).1 ≠ ""
        ∧ demoPrefixed (getSessionId r st).1
        ∧ (getSessionId r2 (getSessionId r st).2).1 = (getSessionId r st).1 := by
  intro r r2 st hv h
  have hout : getSessionId r st
      = ("demo-" ++ jsSlice r 2 10,
          ⟨"demo-" ++ jsSlice r 2 10, some ("demo-" ++ jsSlice r 2 10)⟩) := by
    simp [getSessionId, h]
  -- the synthesized suffix: at most 8 lowercase hex digits
  have hsuf : (jsSlice r 2 10).data.all isLowerHexDigit = true
      ∧ (jsSlice r 2 10).data.length ≤ 8 := by
    rcases hv with h0 | ⟨ds, _, hall, hdata⟩
    · subst h0
      exact ⟨by decide, by decide⟩
    · have hd : (jsSlice r 2 10).data = ds.take 8 := by
        show ((r.data.drop 2).take 8 : List Char) = ds.take 8
        rw [hdata]
        rfl
      constructor
      · rw [hd, List.all_eq_true]
        intro c hc
        exact (List.all_eq_true.mp hall) c (List.take_subset 8 ds hc)
      · rw [hd, List.length_take]
        exact min_le_left 8 ds.length
  have hdata : ("demo-" ++ jsSlice r 2 10).data
      = 'd' :: 'e' :: 'm' :: 'o' :: '-' :: (jsSlice r 2 10).data := by
    rw [String.data_append]
    rfl
  have hnows : ∀ c ∈ ("demo-" ++ jsSlice r 2 10).data, isJsWs c = false := by
    intro c hc
    rw [hdata] at hc
    simp only [List.mem_cons] at hc
    rcases hc with h1 | h1 | h1 | h1 | h1 | h1
    · subst h1; decide
    · subst h1; decide
    · subst h1; decide
    · subst h1; decide
    · subst h1; decide
    · exact hex_not_ws c ((List.all_eq_true.mp hsuf.1) c h1)
  have hne : ("demo-" ++ jsSlice r 2 10) ≠ "" := by
    intro he
    have := (string_eq_empty_iff _).mp he
    rw [hdata] at this
    exact absurd this (by simp)
  have htrim : jsTrim ("demo-" ++ jsSlice r 2 10) = "demo-" ++ jsSlice r 2 10 :=
    jsTrim_no_ws _ hnows
  rw [hout]
  refine ⟨hne, ⟨(jsSlice r 2 10).data, hdata, hsuf.1, hsuf.2⟩, ?_⟩
  simp [getSessionId, htrim, hne]

/-- C3 witness. -/
theorem c3_session_id_synthesis_witness :
    ValidRandHex "0.abcdef123456"
      ∧ jsTrim " " = ""
      ∧ ((getSessionId "0.abcdef123456" ⟨" ", some "x"⟩).1 ≠ ""
        ∧ demoPrefixed (getSessionId "0.abcdef123456" ⟨" ", some "x"⟩).1
        ∧ (getSessionId "0.9"
            (getSessionId "0.abcdef123456" ⟨" ", some "x"⟩).2).1
          = (getSessionId "0.abcdef123456" ⟨" ", some "x"⟩).1) :=
  ⟨Or.inr ⟨['a','b','c','d','e','f','1','2','3','4','5','6'],
      by decide, by decide, by decide⟩,
    by decide,
    c3_session_id_synthesis "0.abcdef123456" "0.9" ⟨" ", some "x"⟩
      (Or.inr ⟨['a','b','c','d','e','f','1','2','3','4','5','6'],
        by decide, by decide, by decide⟩)
      (by decide)⟩

/-! ## Claim C8: persistent-store writes -/

/-- C8 counterexample: with the field holding `abc` (non-empty after
trimming) and the store holding `old`, `getSessionId` overwrites the
store with `abc` — the call does **not** leave the persistent store
unchanged. -/
theorem c8_store_write_counterexample :
    jsTrim "abc" ≠ ""
      ∧ (getSessionId "0.0f3a2b1c" ⟨"abc", some "old"⟩).2.stored ≠ some "old" :=
  ⟨by decide, by decide⟩

/-- C8 (amended): the persistent store is written on every synthesis, on
every explicit non-empty edit, **and on every `getSessionId` call**: the
store always ends up holding the returned id (the current trimmed field
value when non-empty), so a call with a non-empty trimmed value leaves
the store unchanged only when it already held exactly that value; an
edit whose trimmed value is empty writes nothing. -/
theorem c8_store_writes :
    ∀ (r : String) (st : SessionState),
      (getSessionId r st).2.stored = some (getSessionId r st).1
        ∧ (jsTrim st.value ≠ "" → (getSessionId r st).1 = jsTrim st.value)
        ∧ (jsTrim st.value ≠ "" →
          (onSessionEdit st).stored = some (jsTrim st.value))
        ∧ (jsTrim st.value = "" → onSessionEdit st = st) := by
  intro r st
  by_cases h : jsTrim st.value = ""
  · refine ⟨?_, fun hc => absurd h hc, fun hc => absurd h hc, fun _ => ?_⟩
    · simp [getSessionId, h]
    · simp [onSessionEdit, h]
  · exact ⟨by simp [getSessionId, h], fun _ => by simp [getSessionId, h],
      fun _ => by simp [onSessionEdit, h], fun hc => absurd hc h⟩

/-- C8 witness. -/
theorem c8_store_writes_witness :
    jsTrim " abc " ≠ ""
      ∧ (getSessionId "0.12345678" ⟨" abc ", some "old"⟩).2.stored
        = some (getSessionId "0.12345678" ⟨" abc ", some "old"⟩).1
      ∧ (getSessionId "0.12345678" ⟨" abc ", some "old"⟩).1 = jsTrim " abc "
      ∧ (onSessionEdit ⟨" abc ", some "old"⟩).stored = some (jsTrim " abc ") :=
  ⟨by decide,
    (c8_store_writes "0.12345678" ⟨" abc ", some "old"⟩).1,
    (c8_store_writes "0.12345678" ⟨" abc ", some "old"⟩).2.1 (by decide),
    (c8_store_writes "0.12345678" ⟨" abc ", some "old"⟩).2.2.1 (by decide)⟩

/-! ## Claim C6: HTTP outcome classification -/

/-- C6: on a non-success status the outcome is a failure carrying the
raw body when non-empty and `HTTP <status>` when empty; on a success
status whose body fails JSON decoding the outcome is a success wrapping
the raw body under the dedicated `raw` field, never a thrown error. -/
theorem c6_outcome_classification :
    ∀ (α : Type) (parse : String → Option α) (status : Nat) (text : String),
      (resOk status = false → text ≠ "" →
        postJson parse status text = ApiOutcome.failure text)
      ∧ (resOk status = false →
        postJson parse status "" = ApiOutcome.failure ("HTTP " ++ toString status))
      ∧ (resOk status = true → parse text = none →
        postJson parse status text = ApiOutcome.success (RespBody.raw text)) := by
  intro α parse status text
  refine ⟨?_, ?_, ?_⟩
  · intro hok hne
    simp [postJson, hok, hne]
  · intro hok
    simp [postJson, hok]
  · intro hok hparse
    simp [postJson, hok, hparse]

/-- C6 witness (both endpoints call the same `postJson`). -/
theorem c6_outcome_classification_witness :
    resOk 500 = false ∧ ("boom" : String) ≠ ""
      ∧ postJson (fun _ => (none : Option Unit)) 500 "boom" = ApiOutcome.failure "boom"
      ∧ postJson (fun _ => (none : Option Unit)) 500 "" = ApiOutcome.failure ("HTTP " ++ toString 500)
      ∧ resOk 200 = true
      ∧ postJson (fun _ => (none : Option Unit)) 200 "not json"
          = ApiOutcome.success (RespBody.raw "not json") :=
  ⟨by decide, by decide,
    (c6_outcome_classification Unit (fun _ => none) 500 "boom").1 (by decide) (by decide),
    (c6_outcome_classification Unit (fun _ => none) 500 "").2.1 (by decide),
    by decide,
    (c6_outcome_classification Unit (fun _ => none) 200 "not json").2.2 (by decide) rfl⟩

/-! ## Claim C4: segmentation of a single fenced block -/

/-- C4 counterexample: instantiating the claimed form with
`code = "\nx"` (a code body starting with a newline), the emitted body
is `x` — the leading newline is stripped — not `\nx` as the claim
universally states. -/
theorem c4_leading_newline_counterexample :
    segment ("A" ++ "```" ++ "py" ++ "\n" ++ "\nx" ++ "```" ++ "B")
        = [Segment.prose "A", Segment.code (some "py") "x", Segment.prose "B"]
      ∧ segment ("A" ++ "```" ++ "py" ++ "\n" ++ "\nx" ++ "```" ++ "B")
        ≠ [Segment.prose "A", Segment.code (some "py") "\nx", Segment.prose "B"] :=
  ⟨by decide, by decide⟩

/-- C4 (amended): for text `A + fence + L + "\n" + code + fence + B`
(with `A`, `L`, `code`, `B` backtick-free and `L` newline-free) where
`L` trimmed matches `^[A-Za-z0-9_-]+$`, segmenting yields the prose
segment `A` (omitted when its trimmed form is empty), a code segment
carrying language `L` whose body is `code` with **leading newline
characters stripped** (equal to `code` whenever `code` does not begin
with a newline), and the prose segment `B` (omitted when its trimmed
form is empty), in that order. -/
theorem c4_fenced_block_segmentation :
    ∀ (A L code B : String),
      (∀ c ∈ A.data, c ≠ btick) → (∀ c ∈ L.data, c ≠ btick) →
      (∀ c ∈ code.data, c ≠ btick) → (∀ c ∈ B.data, c ≠ btick) →
      (∀ c ∈ L.data, c ≠ '\n') → identLike (jsTrimL L.data) = true →
      segment (A ++ "```" ++ L ++ "\n" ++ code ++ "```" ++ B)
        = (if jsTrimL A.data = [] then [] else [Segment.prose A])
          ++ Segment.code (some L) (dropLeadNl code.data).asString
          :: (if jsTrimL B.data = [] then [] else [Segment.prose B]) := by
  intro A L code B hA hL hcode hB hLn hLid
  have e1 : ("```" : String).data = [btick, btick, btick] := by decide
  have e2 : ("\n" : String).data = ['\n'] := by decide
  have hdata : (A ++ "```" ++ L ++ "\n" ++ code ++ "```" ++ B).data
      = A.data ++ btick :: btick :: btick ::
        ((L.data ++ '\n' :: code.data) ++ btick :: btick :: btick :: B.data) := by
    simp [String.data_append, e1, e2]
    decide
  have hM : ∀ c ∈ L.data ++ '\n' :: code.data, c ≠ btick := by
    intro c hc
    rcases List.mem_append.mp hc with h1 | h1
    · exact hL c h1
    · rcases List.mem_cons.mp h1 with h2 | h2
      · subst h2
        decide
      · exact hcode c h2
  have hsplit : splitFence (A ++ "```" ++ L ++ "\n" ++ code ++ "```" ++ B).data
      = A.data :: (L.data ++ '\n' :: code.data) :: [B.data] := by
    rw [hdata, splitFence_append A.data hA, splitFence_append _ hM,
      splitFence_all_ne B.data hB]
  have hmk : mkCode (L.data ++ '\n' :: code.data)
      = Segment.code (some L) (dropLeadNl code.data).asString := by
    rw [mkCode_tag _ L.data (splitNl code.data)
        (splitNl_append L.data hLn code.data) hLid,
      joinNl_splitNl, asString_data]
  show segmentCL _ = _
  rw [segmentCL, hsplit]
  simp only [List.length_cons, List.length_nil]
  rw [if_neg (by omega)]
  simp only [segsAux, if_true, if_false, hmk, asString_data]
  by_cases ha : jsTrimL A.data = [] <;> by_cases hb : jsTrimL B.data = [] <;>
    simp [ha, hb]

/-- C4 witness. -/
theorem c4_fenced_block_segmentation_witness :
    identLike (jsTrimL ("py" : String).data) = true
      ∧ segment ("Hi" ++ "```" ++ "py" ++ "\n" ++ "x = 1" ++ "```" ++ "Bye")
        = (if jsTrimL ("Hi" : String).data = [] then [] else [Segment.prose "Hi"])
          ++ Segment.code (some "py") (dropLeadNl ("x = 1" : String).data).asString
          :: (if jsTrimL ("Bye" : String).data = [] then [] else [Segment.prose "Bye"]) :=
  ⟨by decide,
    c4_fenced_block_segmentation "Hi" "py" "x = 1" "Bye"
      (by decide) (by decide) (by decide) (by decide) (by decide) (by decide)⟩

/-! ## Claim C5: code piece without a language line -/

/-- C5 counterexample: the body keeps its trailing newline — the segment
is `CodeSegment(absent, "foo\n")`, not `CodeSegment(absent, "foo")`. -/
theorem c5_trailing_newline_counterexample :
    segment "```\nfoo\n```" ≠ [Segment.code none "foo"] := by decide

/-- C5 (amended): segmenting `"```\nfoo\n```"` yields exactly one code
segment with no language tag and body `"foo\n"` (the trailing newline
before the closing fence is retained); in general, for a code piece
whose first line does not trim-match the identifier pattern, no line is
dropped and only leading newline characters are stripped from the
body. -/
theorem c5_no_language_line :
    segment "```\nfoo\n```" = [Segment.code none "foo\n"]
      ∧ ∀ (piece l0 : List Char) (rest : List (List Char)),
        splitNl piece = l0 :: rest → identLike (jsTrimL l0) = false →
        mkCode piece = Segment.code none (dropLeadNl piece).asString :=
  ⟨by decide, mkCode_no_tag⟩

/-- C5 witness. -/
theorem c5_no_language_line_witness :
    splitNl ("\nfoo\n" : String).data = [] :: [['f','o','o'], []]
      ∧ identLike (jsTrimL []) = false
      ∧ mkCode ("\nfoo\n" : String).data
        = Segment.code none (dropLeadNl ("\nfoo\n" : String).data).asString :=
  ⟨by decide, by decide,
    c5_no_language_line.2 ("\nfoo\n" : String).data [] [['f','o','o'], []]
      (by decide) (by decide)⟩

/-! ## Claim C9: segment/join round trip -/

/-- C9: for every well-formed sequence of prose and code segments,
joining the segments back into a single text with fence delimiters (as
`pasteResultToChat` does) and segmenting the result reproduces an
equivalent segment sequence: prose equal up to surrounding whitespace,
code blocks with identical language and bodies equal up to trailing
newlines. -/
theorem c9_segment_join_roundtrip :
    ∀ ss : List Segment, wellFormed ss = true →
      seqEqvB (segment (joinSegs ss)) ss = true := by
  intro ss hwf
  simp only [wellFormed, Bool.and_eq_true, Bool.not_eq_true'] at hwf
  obtain ⟨⟨hne, hall⟩, hadj⟩ := hwf
  show seqEqvB (segmentCL (joinSegsCL ss)) ss = true
  cases ss with
  | nil => simp at hne
  | cons s0 rest0 =>
    cases s0 with
    | prose t =>
      simp only [List.all_cons, Bool.and_eq_true] at hall
      obtain ⟨hwt, hwrest⟩ := hall
      obtain ⟨htne, htbt⟩ := wf_prose_elim t hwt
      cases rest0 with
      | nil =>
        have hj : joinSegsCL [Segment.prose t] = t.data := rfl
        rw [hj, segmentCL_eq, splitFence_all_ne t.data htbt,
          if_pos (show ([t.data] : List (List Char)).length = 1 from rfl),
          seqEqvB_cons, prose_eqv t.data t rfl]
        rfl
      | cons s1 rest1 =>
        cases s1 with
        | prose u => simp [noAdjProse, isProse] at hadj
        | code l b =>
          simp only [List.all_cons, Bool.and_eq_true] at hwrest
          obtain ⟨hwc, hwrest1⟩ := hwrest
          obtain ⟨s, rfl, hsid, hbbt, hbody⟩ := wf_code_elim l b hwc
          have ih := roundtrip_aux rest1 hwrest1
            (noAdjProse_tail _ _ (noAdjProse_tail _ _ hadj))
          have hj : joinSegsCL
              (Segment.prose t :: Segment.code (some s) b :: rest1)
              = (t.data ++ ['\n']) ++ btick :: btick :: btick ::
                  ((s.data ++ '\n' :: (b.data ++ ['\n']))
                    ++ btick :: btick :: btick :: tailJoin rest1) := by
            rw [joinSegsCL_pair, joinSegsCL_cons]
            simp [renderSegCL, fence, List.append_assoc]
          rw [hj, segmentCL_eq,
            splitFence_chunk _ _ _ (prose_snoc_btick_free t htbt)
              (code_piece_btick_free s b hsid hbbt)]
          rw [if_neg (by simp)]
          rw [segsAux_two, if_neg (by rw [jsTrimL_snoc_nl]; exact htne),
            List.singleton_append, seqEqvB_cons, seqEqvB_cons,
            prose_eqv _ t (jsTrimL_snoc_nl t.data),
            code_eqv s b hsid hbody, ih]
          rfl
    | code l b =>
      simp only [List.all_cons, Bool.and_eq_true] at hall
      obtain ⟨hwc, hwrest⟩ := hall
      obtain ⟨s, rfl, hsid, hbbt, hbody⟩ := wf_code_elim l b hwc
      have ih := roundtrip_aux rest0 hwrest (noAdjProse_tail _ _ hadj)
      have hj : joinSegsCL (Segment.code (some s) b :: rest0)
          = btick :: btick :: btick ::
              ((s.data ++ '\n' :: (b.data ++ ['\n']))
                ++ btick :: btick :: btick :: tailJoin rest0) := by
        rw [joinSegsCL_cons]
        simp [renderSegCL, fence, List.append_assoc]
      have hsplit : splitFence (btick :: btick :: btick ::
          ((s.data ++ '\n' :: (b.data ++ ['\n']))
            ++ btick :: btick :: btick :: tailJoin rest0))
          = [] :: (s.data ++ '\n' :: (b.data ++ ['\n']))
              :: splitFence (tailJoin rest0) := by
        rw [splitFence_fence,
          splitFence_append _ (code_piece_btick_free s b hsid hbbt)]
      rw [hj, segmentCL_eq, hsplit, if_neg (by simp), segsAux_two,
        if_pos (show jsTrimL ([] : List Char) = [] from rfl),
        List.nil_append, seqEqvB_cons, code_eqv s b hsid hbody, ih]
      rfl

/-- C9 witness. -/
theorem c9_segment_join_roundtrip_witness :
    wellFormed [Segment.prose "Result:",
        Segment.code (some "python") "x = 1", Segment.prose "ok"] = true
      ∧ seqEqvB
        (segment (joinSegs [Segment.prose "Result:",
          Segment.code (some "python") "x = 1", Segment.prose "ok"]))
        [Segment.prose "Result:", Segment.code (some "python") "x = 1",
          Segment.prose "ok"] = true :=
  ⟨by decide,
    c9_segment_join_roundtrip
      [Segment.prose "Result:", Segment.code (some "python") "x = 1",
        Segment.prose "ok"] (by decide)⟩

/-! ## Claim C10: blank-input early returns -/

/-- C10: on a chat message whose trimmed form is empty `sendChat`
returns with no request issued and the state unchanged; on blank check
code `runCheck` issues no request and changes only the result summary
to the input-required prompt. -/
theorem c10_blank_input_early_return :
    ∀ (r : String) (aF iD : Bool) (st : UiState),
      (jsTrim st.chatInput = "" → sendChatPre r st = (none, st))
      ∧ (jsTrim st.codeInput = "" →
        runCheckPre r aF iD st = (none, { st with resultSummary := "코드를 입력해야 한다." })) := by
  intro r aF iD st
  constructor
  · intro h
    simp [sendChatPre, h]
  · intro h
    simp [runCheckPre, h]

/-- C10 witness. -/
theorem c10_blank_input_early_return_witness :
    jsTrim "  " = ""
      ∧ sendChatPre "0.1f2e3d4c" ⟨"  ", [], "demo-1", none, " \t\n ", "s", [], "f", "d"⟩
        = (none, ⟨"  ", [], "demo-1", none, " \t\n ", "s", [], "f", "d"⟩)
      ∧ jsTrim " \t\n " = ""
      ∧ runCheckPre "0.1f2e3d4c" true false ⟨"  ", [], "demo-1", none, " \t\n ", "s", [], "f", "d"⟩
        = (none, ⟨"  ", [], "demo-1", none, " \t\n ", "코드를 입력해야 한다.", [], "f", "d"⟩) :=
  ⟨by decide,
    (c10_blank_input_early_return "0.1f2e3d4c" true false
      ⟨"  ", [], "demo-1", none, " \t\n ", "s", [], "f", "d"⟩).1 (by decide),
    by decide,
    (c10_blank_input_early_return "0.1f2e3d4c" true false
      ⟨"  ", [], "demo-1", none, " \t\n ", "s", [], "f", "d"⟩).2 (by decide)⟩

end AppJs
